import Mathlib

/-!
# Verification of the BrainPlus execution engine

A shallow embedding of `lib/brainplus.py` (class `Interpreter` and its helper
class `Stack`) together with proofs about the engine's behaviour.

Modelling conventions:
* Python strings become `List Char`; indexing uses `List.get?` so that an
  out-of-range access is visible as `none` (Python raises `IndexError`).
* The `Stack` class (a Python list used LIFO: `push` appends, `pop` removes
  the last element) is modelled as a `List Nat` whose head is the top.
* A Python exception escaping an instruction handler is modelled by the
  `StepResult.fault` constructor, which carries the exception kind and the
  engine state at the moment the exception was raised (the Python object
  survives the exception and stays inspectable).
* The host input callback is modelled as an optional pure stream
  `Nat → Nat` consulted at an internal call counter; the output callback is
  modelled by recording emitted bytes in a list when a callback is present.
  The trace callback (`on_execute`) is pure observation and is not recorded.
-/

/-- Exception kinds that can escape the engine, mirroring the Python
exceptions the code can raise: a `KeyError` from the dispatch-dict lookup
(carrying the offending character), an `IndexError` from an out-of-range
list/string index, and the construction-time failure raised by
`find_functions` when too many functions are declared. -/
inductive Fault where
  | keyError (c : Char)
  | indexError
  | configError
deriving DecidableEq

/-- State of one `Interpreter` instance (the mutable attributes set up by
`Interpreter.__init__`). -/
structure Interp where
  source : List Char
  functions : List Nat
  stack : List Nat
  memory : List Nat
  memory_pointer : Nat
  instruction_pointer : Nat
  input_function : Option (Nat → Nat)
  input_count : Nat
  has_output : Bool
  outputs : List Nat
  cycle_limit : Nat
  cycle_count : Nat
  need_to_exit : Bool

/-- `self.max_functions` (set in `__init__`). -/
def max_functions : Nat := 26

/-- `self.memory_size` (set in `__init__`). -/
def memory_size : Nat := 30000

/-- `self.max_memory_value` (set in `__init__`): 8-bit limit. -/
def max_memory_value : Nat := 255

/-- Result of executing one instruction: either the updated engine state or
an uncaught Python exception together with the state it left behind. -/
inductive StepResult where
  | ok (st : Interp)
  | fault (f : Fault) (st : Interp)

/-- `Interpreter.find_functions`, as the recursive scan it performs: the
`str.find` loop visits every occurrence of the delimiter left to right and
records the index one past it.  `i` is the absolute index of the head of the
remaining suffix. -/
def findFunctionsAux : List Char → Nat → List Nat
  | [], _ => []
  | c :: rest, i =>
      if c = '@' then (i + 1) :: findFunctionsAux rest (i + 1)
      else findFunctionsAux rest (i + 1)

/-- The function table `self.functions` built by `find_functions`. -/
def findFunctions (source : List Char) : List Nat :=
  findFunctionsAux source 0

/-- `Interpreter.__init__`: builds the function table (failing when more
than `max_functions` functions are declared) and the zero-initialised
engine state. -/
def mkInterp (source : List Char) (cycle_limit : Nat)
    (input_function : Option (Nat → Nat)) (has_output : Bool) :
    Except Fault Interp :=
  let functions := findFunctions source
  if functions.length > max_functions then
    Except.error Fault.configError
  else
    Except.ok
      { source := source
        functions := functions
        stack := []
        memory := List.replicate memory_size 0
        memory_pointer := 0
        instruction_pointer := 0
        input_function := input_function
        input_count := 0
        has_output := has_output
        outputs := []
        cycle_limit := cycle_limit
        cycle_count := 0
        need_to_exit := false }

/-- The byte at the memory pointer, `self.memory[self.memory_pointer]`
(total via a default; every reachable state keeps the pointer in range). -/
def currentCell (st : Interp) : Nat :=
  st.memory.getD st.memory_pointer 0

/-- `Interpreter.instr_print`. -/
def instr_print (st : Interp) : Interp :=
  { st with
    outputs := if st.has_output then st.outputs ++ [currentCell st] else st.outputs
    instruction_pointer := st.instruction_pointer + 1 }

/-- `Interpreter.instr_input`: when a callback is present, the byte it
returns (the stream value at the current call counter) overwrites the
current cell. -/
def instr_input (st : Interp) : Interp :=
  match st.input_function with
  | some f =>
      { st with
        memory := st.memory.set st.memory_pointer (f st.input_count)
        input_count := st.input_count + 1
        instruction_pointer := st.instruction_pointer + 1 }
  | none => { st with instruction_pointer := st.instruction_pointer + 1 }

/-- `Interpreter.instr_inc_memory_pointer`: clamped at the top index. -/
def instr_inc_memory_pointer (st : Interp) : Interp :=
  { st with
    memory_pointer :=
      if st.memory_pointer < st.memory.length - 1 then st.memory_pointer + 1
      else st.memory_pointer
    instruction_pointer := st.instruction_pointer + 1 }

/-- `Interpreter.instr_dec_memory_pointer`: Python decrements then clamps a
negative pointer back to 0, which is exactly truncated subtraction. -/
def instr_dec_memory_pointer (st : Interp) : Interp :=
  { st with
    memory_pointer := st.memory_pointer - 1
    instruction_pointer := st.instruction_pointer + 1 }

/-- `Interpreter.instr_inc_memory`: wraps 255 to 0. -/
def instr_inc_memory (st : Interp) : Interp :=
  { st with
    memory := st.memory.set st.memory_pointer
      (if currentCell st < max_memory_value then currentCell st + 1 else 0)
    instruction_pointer := st.instruction_pointer + 1 }

/-- `Interpreter.instr_dec_memory`: wraps 0 to 255. -/
def instr_dec_memory (st : Interp) : Interp :=
  { st with
    memory := st.memory.set st.memory_pointer
      (if currentCell st > 0 then currentCell st - 1 else max_memory_value)
    instruction_pointer := st.instruction_pointer + 1 }

/-- `Interpreter.skip_to_loop_end`, parameterised by the bracket counter and
the instruction pointer.  Each iteration first increments the pointer and
then reads `source[pointer]`; `.error j` is the `IndexError` raised when
that read is out of range (with `j` the value the instruction pointer holds
at that moment), `.ok j` is normal exit with the final pointer value. -/
def skipAux (source : List Char) : Nat → Nat → Except Nat Nat
  | cnt, ip =>
    if h : 0 < cnt ∧ ip < source.length then
      match source[ip + 1]? with
      | none => Except.error (ip + 1)
      | some instruction =>
          skipAux source
            (if instruction = '[' then cnt + 1
             else if instruction = ']' then cnt - 1 else cnt)
            (ip + 1)
    else
      Except.ok ip
termination_by cnt ip => source.length - ip
decreasing_by omega

/-- `Interpreter.instr_loop_start`: on a zero cell, scan to the matching
bracket (an `IndexError` escaping `skip_to_loop_end` aborts before the final
`+ 1`); on a nonzero cell, push this instruction's position. -/
def instr_loop_start (st : Interp) : StepResult :=
  if currentCell st = 0 then
    match skipAux st.source 1 st.instruction_pointer with
    | Except.error j =>
        StepResult.fault Fault.indexError { st with instruction_pointer := j }
    | Except.ok j =>
        StepResult.ok { st with instruction_pointer := j + 1 }
  else
    StepResult.ok
      { st with
        stack := st.instruction_pointer :: st.stack
        instruction_pointer := st.instruction_pointer + 1 }

/-- `Interpreter.instr_loop_end`: the guard around the pop is disabled
(`if True:` in the source), so the pop always happens and raises an
`IndexError` on an empty stack. -/
def instr_loop_end (st : Interp) : StepResult :=
  match st.stack with
  | [] => StepResult.fault Fault.indexError st
  | instr_ptr :: rest =>
      if currentCell st ≠ 0 then
        StepResult.ok { st with stack := rest, instruction_pointer := instr_ptr }
      else
        StepResult.ok
          { st with stack := rest, instruction_pointer := st.instruction_pointer + 1 }

/-- `Interpreter.instr_function_call` for the letter `c`. -/
def instr_function_call (st : Interp) (c : Char) : Interp :=
  let function_no := c.toNat - 'a'.toNat
  if function_no < st.functions.length then
    { st with
      stack := (st.instruction_pointer + 1) :: st.stack
      instruction_pointer := st.functions.getD function_no 0 }
  else
    { st with instruction_pointer := st.instruction_pointer + 1 }

/-- `Interpreter.instr_return`. -/
def instr_return (st : Interp) : Interp :=
  match st.stack with
  | [] => { st with need_to_exit := true }
  | a :: rest => { st with instruction_pointer := a, stack := rest }

/-- `Interpreter.execute_instruction`: dispatch through
`self.instruction_dict`; a character with no entry raises `KeyError` before
any state changes. -/
def execute_instruction (st : Interp) (c : Char) : StepResult :=
  if c = '.' then StepResult.ok (instr_print st)
  else if c = ',' then StepResult.ok (instr_input st)
  else if c = '>' then StepResult.ok (instr_inc_memory_pointer st)
  else if c = '<' then StepResult.ok (instr_dec_memory_pointer st)
  else if c = '+' then StepResult.ok (instr_inc_memory st)
  else if c = '-' then StepResult.ok (instr_dec_memory st)
  else if c = '[' then instr_loop_start st
  else if c = ']' then instr_loop_end st
  else if c = '@' then StepResult.ok (instr_return st)
  else if 'a' ≤ c ∧ c ≤ 'z' then StepResult.ok (instr_function_call st c)
  else StepResult.fault (Fault.keyError c) st

/-- Result of `Interpreter.run`: either a normal return with the final
engine state, or an uncaught exception (with the state left behind). -/
inductive RunResult where
  | done (st : Interp)
  | fault (f : Fault) (st : Interp)

/-- `Interpreter.run`, with explicit fuel standing in for the unbounded
`while` loop: `none` means the fuel ran out before the loop finished (never
the case for sufficient fuel; theorems below exhibit sufficient fuel when a
cycle limit is set).  One iteration checks the loop condition, then the
cycle limit, then fetches and executes one instruction and increments the
cycle counter. -/
def runFuel : Nat → Interp → Option RunResult
  | 0, _ => none
  | fuel + 1, st =>
    if h : st.instruction_pointer < st.source.length ∧ st.need_to_exit = false then
      if st.cycle_limit ≠ 0 ∧ st.cycle_count ≥ st.cycle_limit then
        some (RunResult.done st)
      else
        match execute_instruction st (st.source.get ⟨st.instruction_pointer, h.1⟩) with
        | StepResult.fault f st2 => some (RunResult.fault f st2)
        | StepResult.ok st2 =>
            runFuel fuel { st2 with cycle_count := st2.cycle_count + 1 }
    else
      some (RunResult.done st)

/-!
## Specification-level definitions

These follow the wording of the specification and are compared with the
code-level definitions above.
-/

/-- The spec's description of the `[` scan, stated on the list of characters
after the `[`: examine characters one at a time with a nesting depth that
starts at 1, increase it on `[`, decrease it on `]`, and stop on the `]`
that returns the depth to 0, reporting that character's absolute position
`pos`.  `none` when the source ends before the depth returns to 0. -/
def scanMatch : List Char → Nat → Nat → Option Nat
  | [], _, _ => none
  | c :: rest, depth, pos =>
      if c = ']' ∧ depth = 1 then some pos
      else
        scanMatch rest
          (if c = '[' then depth + 1 else if c = ']' then depth - 1 else depth)
          (pos + 1)

/-- Position of the matching `]` for a `[` at position `i` of `source`, per
the spec's scan description; `none` when no matching `]` exists in the
remaining source. -/
def matchingClose (source : List Char) (i : Nat) : Option Nat :=
  scanMatch (source.drop (i + 1)) 1 (i + 1)

/-- The supported instruction alphabet: exactly the keys of
`self.instruction_dict` (nine punctuation opcodes and the letters
`a`..`z`). -/
def isInstruction (c : Char) : Bool :=
  c = '.' || c = ',' || c = '>' || c = '<' || c = '+' || c = '-' ||
  c = '[' || c = ']' || c = '@' || ('a' ≤ c && c ≤ 'z')

/-- The tape invariant: the memory pointer is a valid index and every cell
holds a byte. -/
def memOK (st : Interp) : Prop :=
  st.memory_pointer < st.memory.length ∧ ∀ v ∈ st.memory, v ≤ max_memory_value

instance (st : Interp) : Decidable (memOK st) := by
  unfold memOK; infer_instance

/-- Every value the input callback can return is a byte. -/
def inputsOK (st : Interp) : Prop :=
  ∀ f, st.input_function = some f → ∀ k, f k ≤ max_memory_value

/-!
## Model of `Interpreter.clone`'s argument plumbing

`clone` builds a Python dict `kwargs` of the explicitly supplied overrides
and then calls `Interpreter(new_source, *kwargs)`.  Dynamic typing matters
here, so configuration values are modelled as a small universe of Python
values; callbacks are opaque tagged values.
-/

/-- A Python value as far as the engine's configuration is concerned. -/
inductive PyVal where
  | int (n : Nat)
  | str (s : String)
  | pynone
  | func (tag : Nat)
deriving DecidableEq

/-- The `kwargs` dict built by `Interpreter.clone`: one entry per override
actually supplied, in insertion order (Python dicts preserve it). -/
def cloneKwargs (cycle_limit input_function output_function on_execute :
    Option PyVal) : List (String × PyVal) :=
  (match cycle_limit with
   | some v => [("cycle_limit", v)]
   | none => []) ++
  (match input_function with
   | some v => [("input_function", v)]
   | none => []) ++
  (match output_function with
   | some v => [("output_function", v)]
   | none => []) ++
  (match on_execute with
   | some v => [("on_execute", v)]
   | none => [])

/-- `*kwargs` in `Interpreter(new_source, *kwargs)`: star-unpacking a dict
iterates over its keys, so the positional arguments passed after the source
are the key strings, not the override values. -/
def cloneStarArgs (kwargs : List (String × PyVal)) : List PyVal :=
  kwargs.map (fun kv => PyVal.str kv.1)

/-- The configuration parameters of `Interpreter.__init__` after `source`. -/
structure InterpConfig where
  cycle_limit : PyVal
  input_function : PyVal
  output_function : PyVal
  on_execute : PyVal
deriving DecidableEq

/-- Binding of `Interpreter.__init__`'s positional parameters after
`source`, with the declared defaults `cycle_limit=0` and `None` callbacks. -/
def initConfig (args : List PyVal) : InterpConfig :=
  { cycle_limit := args.getD 0 (PyVal.int 0)
    input_function := args.getD 1 PyVal.pynone
    output_function := args.getD 2 PyVal.pynone
    on_execute := args.getD 3 PyVal.pynone }

/-- Configuration of the engine produced by `Interpreter.clone` with the
given overrides: `Interpreter(new_source, *kwargs)`. -/
def cloneConfig (cycle_limit input_function output_function on_execute :
    Option PyVal) : InterpConfig :=
  initConfig (cloneStarArgs
    (cloneKwargs cycle_limit input_function output_function on_execute))

/-- The source used by the engine `Interpreter.clone` constructs: the
original's source unless an explicit `source` override is supplied. -/
def cloneSource (orig : List Char) (src : Option (List Char)) : List Char :=
  src.getD orig

/-- The engine state a run result leaves behind (the `Interpreter` object
is inspectable both after a normal return and after an uncaught
exception). -/
def resultState : RunResult → Interp
  | RunResult.done st => st
  | RunResult.fault _ st => st

/-- A concrete engine state with no callbacks, used to instantiate general
theorems on specific inputs. -/
def smallState (source : List Char) (stack : List Nat) (memory : List Nat)
    (memory_pointer instruction_pointer : Nat) : Interp :=
  { source := source
    functions := findFunctions source
    stack := stack
    memory := memory
    memory_pointer := memory_pointer
    instruction_pointer := instruction_pointer
    input_function := none
    input_count := 0
    has_output := false
    outputs := []
    cycle_limit := 0
    cycle_count := 0
    need_to_exit := false }

/-!
## Helper lemmas: dispatch
-/

theorem exec_lbracket (st : Interp) :
    execute_instruction st '[' = instr_loop_start st := rfl

theorem exec_rbracket (st : Interp) :
    execute_instruction st ']' = instr_loop_end st := rfl

theorem exec_at (st : Interp) :
    execute_instruction st '@' = StepResult.ok (instr_return st) := rfl

theorem exec_letter (st : Interp) (c : Char) (h1 : 'a' ≤ c) (h2 : c ≤ 'z') :
    execute_instruction st c = StepResult.ok (instr_function_call st c) := by
  have d1 : c ≠ '.' := by rintro rfl; revert h1; decide
  have d2 : c ≠ ',' := by rintro rfl; revert h1; decide
  have d3 : c ≠ '>' := by rintro rfl; revert h1; decide
  have d4 : c ≠ '<' := by rintro rfl; revert h1; decide
  have d5 : c ≠ '+' := by rintro rfl; revert h1; decide
  have d6 : c ≠ '-' := by rintro rfl; revert h1; decide
  have d7 : c ≠ '[' := by rintro rfl; revert h1; decide
  have d8 : c ≠ ']' := by rintro rfl; revert h1; decide
  have d9 : c ≠ '@' := by rintro rfl; revert h1; decide
  simp [execute_instruction, d1, d2, d3, d4, d5, d6, d7, d8, d9, h1, h2]

theorem exec_unknown (st : Interp) (c : Char) (h : isInstruction c = false) :
    execute_instruction st c = StepResult.fault (Fault.keyError c) st := by
  simp only [isInstruction, Bool.or_eq_false_iff, Bool.and_eq_false_iff,
    decide_eq_false_iff_not] at h
  obtain ⟨⟨⟨⟨⟨⟨⟨⟨⟨d1, d2⟩, d3⟩, d4⟩, d5⟩, d6⟩, d7⟩, d8⟩, d9⟩, d10⟩ := h
  have hletter : ¬('a' ≤ c ∧ c ≤ 'z') := by
    rcases d10 with h10 | h10
    · exact fun hc => h10 (by exact_mod_cast hc.1)
    · exact fun hc => h10 (by exact_mod_cast hc.2)
  simp [execute_instruction, d1, d2, d3, d4, d5, d6, d7, d8, d9, hletter]

/-!
## Helper lemmas: what one executed instruction can and cannot change
-/

theorem exec_ok_preserves (st : Interp) (c : Char) (st2 : Interp)
    (h : execute_instruction st c = StepResult.ok st2) :
    st2.cycle_limit = st.cycle_limit ∧ st2.cycle_count = st.cycle_count ∧
    st2.source = st.source ∧ st2.functions = st.functions ∧
    st2.input_function = st.input_function ∧
    st2.memory.length = st.memory.length := by
  unfold execute_instruction at h
  split at h
  · cases h; simp [instr_print]
  split at h
  · cases h; cases hin : st.input_function <;> simp [instr_input, hin]
  split at h
  · cases h; simp [instr_inc_memory_pointer]
  split at h
  · cases h; simp [instr_dec_memory_pointer]
  split at h
  · cases h; simp [instr_inc_memory]
  split at h
  · cases h; simp [instr_dec_memory]
  split at h
  · unfold instr_loop_start at h
    split at h
    · split at h
      · exact StepResult.noConfusion h
      · cases h; simp
    · cases h; simp
  split at h
  · unfold instr_loop_end at h
    split at h
    · exact StepResult.noConfusion h
    · split at h
      · cases h; simp
      · cases h; simp
  split at h
  · cases h
    cases hs : st.stack <;> simp [instr_return, hs]
  split at h
  · cases h
    simp only [instr_function_call]
    split <;> simp
  exact StepResult.noConfusion h

theorem exec_fault_preserves (st : Interp) (c : Char) (f : Fault) (st2 : Interp)
    (h : execute_instruction st c = StepResult.fault f st2) :
    st2.cycle_limit = st.cycle_limit ∧ st2.cycle_count = st.cycle_count := by
  unfold execute_instruction at h
  split at h
  · exact StepResult.noConfusion h
  split at h
  · exact StepResult.noConfusion h
  split at h
  · exact StepResult.noConfusion h
  split at h
  · exact StepResult.noConfusion h
  split at h
  · exact StepResult.noConfusion h
  split at h
  · exact StepResult.noConfusion h
  split at h
  · unfold instr_loop_start at h
    split at h
    · split at h
      · cases h; simp
      · exact StepResult.noConfusion h
    · exact StepResult.noConfusion h
  split at h
  · unfold instr_loop_end at h
    split at h
    · cases h; simp
    · split at h
      · exact StepResult.noConfusion h
      · exact StepResult.noConfusion h
  split at h
  · exact StepResult.noConfusion h
  split at h
  · exact StepResult.noConfusion h
  cases h; simp

theorem exec_ok_exit_flag (st : Interp) (c : Char) (st2 : Interp)
    (h : execute_instruction st c = StepResult.ok st2)
    (hne : ¬(c = '@' ∧ st.stack = [])) :
    st2.need_to_exit = st.need_to_exit := by
  unfold execute_instruction at h
  split at h
  · cases h; simp [instr_print]
  split at h
  · cases h; cases hin : st.input_function <;> simp [instr_input, hin]
  split at h
  · cases h; simp [instr_inc_memory_pointer]
  split at h
  · cases h; simp [instr_dec_memory_pointer]
  split at h
  · cases h; simp [instr_inc_memory]
  split at h
  · cases h; simp [instr_dec_memory]
  split at h
  · unfold instr_loop_start at h
    split at h
    · split at h
      · exact StepResult.noConfusion h
      · cases h; simp
    · cases h; simp
  split at h
  · unfold instr_loop_end at h
    split at h
    · exact StepResult.noConfusion h
    · split at h
      · cases h; simp
      · cases h; simp
  split at h
  · rename_i hat
    cases h
    unfold instr_return
    split
    · rename_i hs
      exact absurd ⟨hat, hs⟩ hne
    · simp
  split at h
  · cases h
    simp only [instr_function_call]
    split <;> simp
  exact StepResult.noConfusion h

/-!
## Helper lemmas: the bracket-matching scan
-/

theorem skipAux_zero (source : List Char) (ip : Nat) :
    skipAux source 0 ip = Except.ok ip := by
  rw [skipAux]
  simp

theorem scanMatch_pos (l : List Char) :
    ∀ (depth pos j : Nat), scanMatch l depth pos = some j →
      pos ≤ j ∧ l[j - pos]? = some ']' := by
  induction l with
  | nil =>
    intro depth pos j h
    simp [scanMatch] at h
  | cons c rest ih =>
    intro depth pos j h
    simp only [scanMatch] at h
    split at h
    · rename_i hstop
      cases h
      refine ⟨Nat.le_refl pos, ?_⟩
      simp [hstop.1]
    · obtain ⟨h1, h2⟩ := ih _ _ _ h
      refine ⟨by omega, ?_⟩
      have hj : j - pos = (j - (pos + 1)) + 1 := by omega
      rw [hj]
      simpa using h2

theorem skipAux_ok_of_scanMatch (source : List Char) :
    ∀ (n ip cnt j : Nat), source.length - ip ≤ n → 0 < cnt →
      scanMatch (source.drop (ip + 1)) cnt (ip + 1) = some j →
      skipAux source cnt ip = Except.ok j := by
  intro n
  induction n with
  | zero =>
    intro ip cnt j hn hcnt hscan
    rw [List.drop_eq_nil_iff.mpr (by omega)] at hscan
    simp [scanMatch] at hscan
  | succ n ih =>
    intro ip cnt j hn hcnt hscan
    cases hdrop : source.drop (ip + 1) with
    | nil =>
      rw [hdrop] at hscan
      simp [scanMatch] at hscan
    | cons c rest =>
      have hlen : ip + 1 < source.length := by
        by_contra hcon
        rw [List.drop_eq_nil_iff.mpr (by omega)] at hdrop
        exact List.noConfusion hdrop
      have hget : source[ip + 1]? = some c := by
        rw [← List.head?_drop, hdrop]
        rfl
      have hrest : rest = source.drop (ip + 1 + 1) := by
        have ht := List.tail_drop source (ip + 1)
        rw [hdrop] at ht
        exact ht
      rw [hdrop] at hscan
      simp only [scanMatch] at hscan
      rw [skipAux, dif_pos ⟨hcnt, by omega⟩, hget]
      split at hscan
      · rename_i hstop
        cases hscan
        have hone : (if c = '[' then cnt + 1
            else if c = ']' then cnt - 1 else cnt) = 0 := by
          simp [hstop.1, hstop.2]
        simp only [hone]
        exact skipAux_zero source (ip + 1)
      · rename_i hstop
        apply ih (ip + 1) _ j (by omega)
        · by_cases hc1 : c = '['
          · rw [if_pos hc1]; omega
          · by_cases hc2 : c = ']'
            · have hne1 : cnt ≠ 1 := fun h1 => hstop ⟨hc2, h1⟩
              rw [if_neg hc1, if_pos hc2]; omega
            · rw [if_neg hc1, if_neg hc2]; omega
        · rw [← hrest]
          exact hscan

theorem skipAux_error_of_no_scanMatch (source : List Char) :
    ∀ (n ip cnt : Nat), source.length - ip ≤ n → 0 < cnt →
      ip < source.length →
      scanMatch (source.drop (ip + 1)) cnt (ip + 1) = none →
      skipAux source cnt ip = Except.error source.length := by
  intro n
  induction n with
  | zero =>
    intro ip cnt hn hcnt hip hscan
    omega
  | succ n ih =>
    intro ip cnt hn hcnt hip hscan
    cases hdrop : source.drop (ip + 1) with
    | nil =>
      have hgone : source.length ≤ ip + 1 := List.drop_eq_nil_iff.mp hdrop
      have hget : source[ip + 1]? = none := by
        rw [← List.head?_drop, hdrop]
        rfl
      rw [skipAux, dif_pos ⟨hcnt, hip⟩, hget]
      have : ip + 1 = source.length := by omega
      rw [this]
    | cons c rest =>
      have hlen : ip + 1 < source.length := by
        by_contra hcon
        rw [List.drop_eq_nil_iff.mpr (by omega)] at hdrop
        exact List.noConfusion hdrop
      have hget : source[ip + 1]? = some c := by
        rw [← List.head?_drop, hdrop]
        rfl
      have hrest : rest = source.drop (ip + 1 + 1) := by
        have ht := List.tail_drop source (ip + 1)
        rw [hdrop] at ht
        exact ht
      rw [hdrop] at hscan
      simp only [scanMatch] at hscan
      rw [skipAux, dif_pos ⟨hcnt, by omega⟩, hget]
      split at hscan
      · exact Option.noConfusion hscan
      · rename_i hstop
        refine ih (ip + 1) _ (by omega) ?_ hlen ?_
        · by_cases hc1 : c = '['
          · rw [if_pos hc1]; omega
          · by_cases hc2 : c = ']'
            · have hne1 : cnt ≠ 1 := fun h1 => hstop ⟨hc2, h1⟩
              rw [if_neg hc1, if_pos hc2]; omega
            · rw [if_neg hc1, if_neg hc2]; omega
        · rw [← hrest]
          exact hscan

/-!
## Helper lemmas: the run loop and the cycle limit
-/

theorem runFuel_count_le :
    ∀ (fuel : Nat) (st : Interp), st.cycle_limit ≠ 0 →
      st.cycle_count ≤ st.cycle_limit →
      ∀ r, runFuel fuel st = some r →
        (resultState r).cycle_count ≤ st.cycle_limit := by
  intro fuel
  induction fuel with
  | zero =>
    intro st h1 h2 r hr
    exact Option.noConfusion hr
  | succ fuel ih =>
    intro st h1 h2 r hr
    rw [runFuel] at hr
    split at hr
    · split at hr
      · cases hr
        exact h2
      · rename_i hloop hcyc
        split at hr
        · cases hr
          rename_i f st2 hexec
          have hp := exec_fault_preserves st _ f st2 hexec
          show st2.cycle_count ≤ st.cycle_limit
          rw [hp.2]
          exact h2
        · rename_i st2 hexec
          have hp := exec_ok_preserves st _ st2 hexec
          have hcnt : st.cycle_count < st.cycle_limit := by
            push_neg at hcyc
            exact hcyc h1
          have hrec := ih { st2 with cycle_count := st2.cycle_count + 1 }
            (by simpa [hp.1] using h1)
            (by simp only [hp.1, hp.2]; omega)
            r hr
          simpa [hp.1] using hrec
    · cases hr
      exact h2

theorem runFuel_terminates :
    ∀ (fuel : Nat) (st : Interp), st.cycle_limit ≠ 0 → 0 < fuel →
      st.cycle_limit < fuel + st.cycle_count →
      runFuel fuel st ≠ none := by
  intro fuel
  induction fuel with
  | zero =>
    intro st _ h0 _
    omega
  | succ fuel ih =>
    intro st h1 h0 hf
    rw [runFuel]
    split
    · split
      · simp
      · rename_i hloop hcyc
        split
        · simp
        · rename_i st2 hexec
          have hp := exec_ok_preserves st _ st2 hexec
          have hcnt : st.cycle_count < st.cycle_limit := by
            push_neg at hcyc
            exact hcyc h1
          apply ih
          · simpa [hp.1] using h1
          · omega
          · simp only [hp.1, hp.2]
            omega
    · simp

/-!
## Helper lemmas: the tape invariant
-/

theorem currentCell_le (st : Interp) (hm : memOK st) :
    currentCell st ≤ max_memory_value := by
  unfold currentCell
  rw [List.getD_eq_getElem st.memory 0 hm.1]
  exact hm.2 _ (List.getElem_mem hm.1)

theorem exec_ok_memOK (st : Interp) (c : Char) (st2 : Interp)
    (hm : memOK st) (hin : inputsOK st)
    (h : execute_instruction st c = StepResult.ok st2) :
    memOK st2 := by
  obtain ⟨hptr, hvals⟩ := hm
  unfold execute_instruction at h
  split at h
  · cases h
    exact ⟨hptr, hvals⟩
  split at h
  · cases h
    cases hif : st.input_function with
    | none => simpa [instr_input, hif, memOK] using ⟨hptr, hvals⟩
    | some f =>
        refine ⟨?_, ?_⟩
        · simpa [instr_input, hif] using hptr
        · intro v hv
          simp only [instr_input, hif] at hv
          rcases List.mem_or_eq_of_mem_set hv with hv1 | hv1
          · exact hvals v hv1
          · rw [hv1]
            exact hin f hif st.input_count
  split at h
  · cases h
    refine ⟨?_, hvals⟩
    simp only [instr_inc_memory_pointer]
    split <;> omega
  split at h
  · cases h
    refine ⟨?_, hvals⟩
    simp only [instr_dec_memory_pointer]
    omega
  split at h
  · cases h
    refine ⟨by simpa [instr_inc_memory] using hptr, ?_⟩
    intro v hv
    simp only [instr_inc_memory] at hv
    rcases List.mem_or_eq_of_mem_set hv with hv1 | hv1
    · exact hvals v hv1
    · rw [hv1]
      split <;> omega
  split at h
  · cases h
    refine ⟨by simpa [instr_dec_memory] using hptr, ?_⟩
    intro v hv
    simp only [instr_dec_memory] at hv
    rcases List.mem_or_eq_of_mem_set hv with hv1 | hv1
    · exact hvals v hv1
    · rw [hv1]
      have := currentCell_le st ⟨hptr, hvals⟩
      split <;> omega
  split at h
  · unfold instr_loop_start at h
    split at h
    · split at h
      · exact StepResult.noConfusion h
      · cases h
        exact ⟨hptr, hvals⟩
    · cases h
      exact ⟨hptr, hvals⟩
  split at h
  · unfold instr_loop_end at h
    split at h
    · exact StepResult.noConfusion h
    · split at h
      · cases h
        exact ⟨hptr, hvals⟩
      · cases h
        exact ⟨hptr, hvals⟩
  split at h
  · cases h
    cases hs : st.stack <;> simp only [instr_return, hs] <;> exact ⟨hptr, hvals⟩
  split at h
  · cases h
    simp only [instr_function_call]
    split <;> exact ⟨hptr, hvals⟩
  exact StepResult.noConfusion h

theorem exec_fault_memOK (st : Interp) (c : Char) (f : Fault) (st2 : Interp)
    (hm : memOK st) (h : execute_instruction st c = StepResult.fault f st2) :
    memOK st2 := by
  unfold execute_instruction at h
  split at h
  · exact StepResult.noConfusion h
  split at h
  · exact StepResult.noConfusion h
  split at h
  · exact StepResult.noConfusion h
  split at h
  · exact StepResult.noConfusion h
  split at h
  · exact StepResult.noConfusion h
  split at h
  · exact StepResult.noConfusion h
  split at h
  · unfold instr_loop_start at h
    split at h
    · split at h
      · cases h
        exact hm
      · exact StepResult.noConfusion h
    · exact StepResult.noConfusion h
  split at h
  · unfold instr_loop_end at h
    split at h
    · cases h
      exact hm
    · split at h
      · exact StepResult.noConfusion h
      · exact StepResult.noConfusion h
  split at h
  · exact StepResult.noConfusion h
  split at h
  · exact StepResult.noConfusion h
  cases h
  exact hm

theorem exec_ok_inputsOK (st : Interp) (c : Char) (st2 : Interp)
    (hin : inputsOK st) (h : execute_instruction st c = StepResult.ok st2) :
    inputsOK st2 := by
  intro f hf k
  have hp := (exec_ok_preserves st c st2 h).2.2.2.2.1
  exact hin f (by rw [← hp]; exact hf) k

theorem runFuel_memOK :
    ∀ (fuel : Nat) (st : Interp), memOK st → inputsOK st →
      ∀ r, runFuel fuel st = some r → memOK (resultState r) := by
  intro fuel
  induction fuel with
  | zero =>
    intro st hm hin r hr
    exact Option.noConfusion hr
  | succ fuel ih =>
    intro st hm hin r hr
    rw [runFuel] at hr
    split at hr
    · split at hr
      · cases hr
        exact hm
      · split at hr
        · cases hr
          rename_i f st2 hexec
          exact exec_fault_memOK st _ f st2 hm hexec
        · rename_i st2 hexec
          have hm2 := exec_ok_memOK st _ st2 hm hin hexec
          have hin2 := exec_ok_inputsOK st _ st2 hin hexec
          exact ih { st2 with cycle_count := st2.cycle_count + 1 }
            (by simpa [memOK] using hm2) (by simpa [inputsOK] using hin2) r hr
    · cases hr
      exact hm

/-!
## Helper lemmas: the function table
-/

theorem findFunctionsAux_mem (l : List Char) :
    ∀ (i j : Nat), j ∈ findFunctionsAux l i ↔
      ∃ k, l[k]? = some '@' ∧ j = i + k + 1 := by
  induction l with
  | nil =>
    intro i j
    simp [findFunctionsAux]
  | cons c rest ih =>
    intro i j
    by_cases hc : c = '@'
    · simp only [findFunctionsAux, if_pos hc, List.mem_cons]
      constructor
      · intro hm
        rcases hm with h1 | h1
        · exact ⟨0, by simp [hc], by omega⟩
        · obtain ⟨k, hk1, hk2⟩ := (ih (i + 1) j).mp h1
          exact ⟨k + 1, by simpa using hk1, by omega⟩
      · rintro ⟨k, hk1, hk2⟩
        cases k with
        | zero => left; omega
        | succ k =>
          right
          exact (ih (i + 1) j).mpr ⟨k, by simpa using hk1, by omega⟩
    · simp only [findFunctionsAux, if_neg hc]
      constructor
      · intro hm
        obtain ⟨k, hk1, hk2⟩ := (ih (i + 1) j).mp hm
        exact ⟨k + 1, by simpa using hk1, by omega⟩
      · rintro ⟨k, hk1, hk2⟩
        cases k with
        | zero =>
          simp only [List.getElem?_cons_zero, Option.some.injEq] at hk1
          exact absurd hk1 hc
        | succ k =>
          exact (ih (i + 1) j).mpr ⟨k, by simpa using hk1, by omega⟩

theorem findFunctionsAux_sorted (l : List Char) :
    ∀ i, List.Pairwise (· < ·) (findFunctionsAux l i) ∧
      ∀ j ∈ findFunctionsAux l i, i < j := by
  induction l with
  | nil =>
    intro i
    simp [findFunctionsAux]
  | cons c rest ih =>
    intro i
    by_cases hc : c = '@'
    · simp only [findFunctionsAux, if_pos hc]
      obtain ⟨hp, hb⟩ := ih (i + 1)
      refine ⟨List.pairwise_cons.mpr ⟨fun j hj => hb j hj, hp⟩, ?_⟩
      intro j hj
      rcases List.mem_cons.mp hj with h1 | h1
      · omega
      · have := hb j h1
        omega
    · simp only [findFunctionsAux, if_neg hc]
      obtain ⟨hp, hb⟩ := ih (i + 1)
      refine ⟨hp, ?_⟩
      intro j hj
      have := hb j hj
      omega

/-!
## Claim theorems
-/

/-- **C1**: at a `[` instruction, if the current cell is 0 and a matching
`]` exists in the remaining source (per the spec's depth-counting scan,
`matchingClose`), the scan lands exactly on that `]` and the instruction
pointer is set to one past it; if the current cell is nonzero, the position
of the `[` is pushed onto the control stack and the instruction pointer is
incremented by 1.  The record updates show the memory tape and pointer are
unchanged in both branches. -/
theorem C1_loop_start :
    ∀ (st : Interp) (j : Nat),
      (currentCell st = 0 →
        matchingClose st.source st.instruction_pointer = some j →
        execute_instruction st '[' =
          StepResult.ok { st with instruction_pointer := j + 1 } ∧
        st.source[j]? = some ']') ∧
      (currentCell st ≠ 0 →
        execute_instruction st '[' =
          StepResult.ok { st with
            stack := st.instruction_pointer :: st.stack
            instruction_pointer := st.instruction_pointer + 1 }) := by
  intro st j
  constructor
  · intro hcell hmatch
    unfold matchingClose at hmatch
    have hskip : skipAux st.source 1 st.instruction_pointer = Except.ok j :=
      skipAux_ok_of_scanMatch st.source
        (st.source.length - st.instruction_pointer) st.instruction_pointer 1 j
        (Nat.le_refl _) (by omega) hmatch
    constructor
    · rw [exec_lbracket]
      unfold instr_loop_start
      rw [if_pos hcell, hskip]
    · obtain ⟨h1, h2⟩ := scanMatch_pos
        (st.source.drop (st.instruction_pointer + 1)) 1
        (st.instruction_pointer + 1) j hmatch
      rw [List.getElem?_drop] at h2
      rwa [show st.instruction_pointer + 1 + (j - (st.instruction_pointer + 1)) = j
        from by omega] at h2
  · intro hcell
    rw [exec_lbracket]
    unfold instr_loop_start
    rw [if_neg hcell]

/-- Witness for C1 on the program `[+].` with a zero cell (the scan lands
on the `]` at offset 2 and the instruction pointer becomes 3) and with a
nonzero cell (offset 0 is pushed and the pointer moves to 1). -/
theorem C1_loop_start_witness :
    (execute_instruction (smallState ['[', '+', ']', '.'] [] [0] 0 0) '[' =
      StepResult.ok { smallState ['[', '+', ']', '.'] [] [0] 0 0 with
        instruction_pointer := 3 } ∧
     (['[', '+', ']', '.'] : List Char)[2]? = some ']') ∧
    execute_instruction (smallState ['[', '+', ']', '.'] [] [1] 0 0) '[' =
      StepResult.ok { smallState ['[', '+', ']', '.'] [] [1] 0 0 with
        stack := [0]
        instruction_pointer := 1 } :=
  ⟨(C1_loop_start (smallState ['[', '+', ']', '.'] [] [0] 0 0) 2).1
      (by decide) (by decide),
   (C1_loop_start (smallState ['[', '+', ']', '.'] [] [1] 0 0) 0).2
      (by decide)⟩

/-- **C2**: `]` pops from the control stack; on an empty stack the pop
itself is a fatal fault (the disabled guard does not fall through), and on
a non-empty stack the instruction pointer returns to the popped address
when the current cell is nonzero and advances by 1 (discarding the popped
address) when it is zero. -/
theorem C2_loop_end :
    ∀ (st : Interp),
      (st.stack = [] →
        execute_instruction st ']' = StepResult.fault Fault.indexError st) ∧
      (∀ a rest, st.stack = a :: rest →
        (currentCell st ≠ 0 →
          execute_instruction st ']' =
            StepResult.ok { st with stack := rest, instruction_pointer := a }) ∧
        (currentCell st = 0 →
          execute_instruction st ']' =
            StepResult.ok { st with
              stack := rest
              instruction_pointer := st.instruction_pointer + 1 })) := by
  intro st
  constructor
  · intro hs
    rw [exec_rbracket]
    unfold instr_loop_end
    simp only [hs]
  · intro a rest hs
    constructor
    · intro hc
      rw [exec_rbracket]
      unfold instr_loop_end
      simp only [hs]
      rw [if_pos hc]
    · intro hc
      rw [exec_rbracket]
      unfold instr_loop_end
      simp only [hs]
      rw [if_neg (by simp [hc])]

/-- Witness for C2: `]` with an empty stack faults; with stack top 7 it
jumps back to 7 on a nonzero cell and falls through on a zero cell. -/
theorem C2_loop_end_witness :
    execute_instruction (smallState [']'] [] [0] 0 0) ']' =
      StepResult.fault Fault.indexError (smallState [']'] [] [0] 0 0) ∧
    execute_instruction (smallState [']'] [7] [1] 0 0) ']' =
      StepResult.ok { smallState [']'] [7] [1] 0 0 with
        stack := []
        instruction_pointer := 7 } ∧
    execute_instruction (smallState [']'] [7] [0] 0 0) ']' =
      StepResult.ok { smallState [']'] [7] [0] 0 0 with
        stack := []
        instruction_pointer := 1 } :=
  ⟨(C2_loop_end (smallState [']'] [] [0] 0 0)).1 rfl,
   ((C2_loop_end (smallState [']'] [7] [1] 0 0)).2 7 [] rfl).1 (by decide),
   ((C2_loop_end (smallState [']'] [7] [0] 0 0)).2 7 [] rfl).2 (by decide)⟩

/-- **C3**: a letter `a`..`z` with function index below the declared count
pushes the return address (instruction pointer + 1) and jumps to that
function's start offset; with index at or above the count it is a silent
no-op apart from advancing the instruction pointer (no fault, stack, tape
and pointer unchanged, as the record updates show). -/
theorem C3_function_call :
    ∀ (st : Interp) (c : Char), 'a' ≤ c → c ≤ 'z' →
      (∀ h : c.toNat - 'a'.toNat < st.functions.length,
        execute_instruction st c =
          StepResult.ok { st with
            stack := (st.instruction_pointer + 1) :: st.stack
            instruction_pointer := st.functions.get ⟨c.toNat - 'a'.toNat, h⟩ }) ∧
      (st.functions.length ≤ c.toNat - 'a'.toNat →
        execute_instruction st c =
          StepResult.ok { st with
            instruction_pointer := st.instruction_pointer + 1 }) := by
  intro st c h1 h2
  constructor
  · intro h
    rw [exec_letter st c h1 h2]
    unfold instr_function_call
    simp only [if_pos h]
    rw [List.getD_eq_getElem st.functions 0 h]
    rfl
  · intro h
    rw [exec_letter st c h1 h2]
    unfold instr_function_call
    simp only [if_neg (by omega : ¬ c.toNat - 'a'.toNat < st.functions.length)]

/-- Witness for C3 on the program `b@+`: the table has one function (offset
2), so `b` (index 1) is a no-op advancing the pointer, while `a` (index 0)
pushes the return address 1 and jumps to offset 2. -/
theorem C3_function_call_witness :
    execute_instruction (smallState ['b', '@', '+'] [] [0] 0 0) 'a' =
      StepResult.ok { smallState ['b', '@', '+'] [] [0] 0 0 with
        stack := [1]
        instruction_pointer := 2 } ∧
    execute_instruction (smallState ['b', '@', '+'] [] [0] 0 0) 'b' =
      StepResult.ok { smallState ['b', '@', '+'] [] [0] 0 0 with
        instruction_pointer := 1 } :=
  ⟨(C3_function_call (smallState ['b', '@', '+'] [] [0] 0 0) 'a'
      (by decide) (by decide)).1 (by decide),
   (C3_function_call (smallState ['b', '@', '+'] [] [0] 0 0) 'b'
      (by decide) (by decide)).2 (by decide)⟩

/-- **C4**: `@` with an empty control stack sets the halt flag (and that is
the only way any instruction ever sets it); with a non-empty stack it pops
one address into the instruction pointer and does not halt.  The record
updates show tape and pointer unchanged in both cases. -/
theorem C4_return_halt :
    ∀ (st : Interp),
      (st.stack = [] →
        execute_instruction st '@' =
          StepResult.ok { st with need_to_exit := true }) ∧
      (∀ a rest, st.stack = a :: rest →
        execute_instruction st '@' =
          StepResult.ok { st with
            instruction_pointer := a
            stack := rest }) ∧
      (∀ (c : Char) (st2 : Interp), execute_instruction st c = StepResult.ok st2 →
        st.need_to_exit = false → st2.need_to_exit = true →
        c = '@' ∧ st.stack = []) := by
  intro st
  refine ⟨?_, ?_, ?_⟩
  · intro hs
    rw [exec_at]
    unfold instr_return
    simp only [hs]
  · intro a rest hs
    rw [exec_at]
    unfold instr_return
    simp only [hs]
  · intro c st2 hex hf ht
    by_contra hne
    have := exec_ok_exit_flag st c st2 hex hne
    rw [ht, hf] at this
    exact Bool.noConfusion this

/-- Witness for C4: `@` with empty stack halts (flag true), `@` with stack
top 5 returns there without halting; instantiating the only-way clause at
the halting step recovers `'@'` and the empty stack. -/
theorem C4_return_halt_witness :
    execute_instruction (smallState ['@'] [] [0] 0 0) '@' =
      StepResult.ok { smallState ['@'] [] [0] 0 0 with need_to_exit := true } ∧
    execute_instruction (smallState ['@'] [5] [0] 0 0) '@' =
      StepResult.ok { smallState ['@'] [5] [0] 0 0 with
        instruction_pointer := 5
        stack := [] } ∧
    ('@' = '@' ∧ (smallState ['@'] [] [0] 0 0).stack = []) :=
  ⟨(C4_return_halt (smallState ['@'] [] [0] 0 0)).1 rfl,
   (C4_return_halt (smallState ['@'] [5] [0] 0 0)).2.1 5 [] rfl,
   (C4_return_halt (smallState ['@'] [] [0] 0 0)).2.2 '@'
      { smallState ['@'] [] [0] 0 0 with need_to_exit := true }
      ((C4_return_halt (smallState ['@'] [] [0] 0 0)).1 rfl) rfl rfl⟩

/-- **C5** (counterexample to the claim; the code is buggy): `clone` builds
a `kwargs` dict of the supplied overrides but then calls
`Interpreter(new_source, *kwargs)` — star-unpacking a dict passes its KEY
STRINGS positionally, so `clone(cycle_limit=5)` constructs an engine whose
cycle limit is the string `"cycle_limit"`, not 5.  Only the default use of
the original's source works as claimed. -/
theorem C5_clone_override_bug :
    cloneSource ['+', '-'] none = ['+', '-'] ∧
    cloneConfig (some (PyVal.int 5)) none none none =
      { cycle_limit := PyVal.str "cycle_limit"
        input_function := PyVal.pynone
        output_function := PyVal.pynone
        on_execute := PyVal.pynone } ∧
    (cloneConfig (some (PyVal.int 5)) none none none).cycle_limit ≠
      PyVal.int 5 := by
  refine ⟨rfl, rfl, ?_⟩
  decide

/-- **C6**: with a nonzero cycle limit `n`, a freshly constructed engine's
run executes at most `n` instructions: every state in which the run loop
can stop (normal return or uncaught instruction fault) has cycle count at
most `n`, and fuel `n + 1` always suffices for the loop to stop — the
limit guarantees termination and is reached as a clean stop
(`RunResult.done`), not an error. -/
theorem C6_cycle_limit :
    ∀ (source : List Char) (n : Nat) (inp : Option (Nat → Nat)) (hout : Bool)
      (st0 : Interp), n ≠ 0 → mkInterp source n inp hout = Except.ok st0 →
      (∀ fuel r, runFuel fuel st0 = some r → (resultState r).cycle_count ≤ n) ∧
      runFuel (n + 1) st0 ≠ none := by
  intro source n inp hout st0 hn hmk
  have hfields : st0.cycle_limit = n ∧ st0.cycle_count = 0 := by
    simp only [mkInterp] at hmk
    split at hmk
    · exact Except.noConfusion hmk
    · cases hmk
      exact ⟨rfl, rfl⟩
  constructor
  · intro fuel r hr
    have := runFuel_count_le fuel st0 (by rw [hfields.1]; exact hn)
      (by rw [hfields.1, hfields.2]; omega) r hr
    rwa [hfields.1] at this
  · exact runFuel_terminates (n + 1) st0 (by rw [hfields.1]; exact hn)
      (by omega) (by rw [hfields.1, hfields.2]; omega)

/-- Witness for C6: the engine for `+++` with cycle limit 2 runs at most 2
instructions and fuel 3 suffices. -/
theorem C6_cycle_limit_witness :
    ∃ st0, mkInterp ['+', '+', '+'] 2 none false = Except.ok st0 ∧
      (∀ fuel r, runFuel fuel st0 = some r → (resultState r).cycle_count ≤ 2) ∧
      runFuel 3 st0 ≠ none :=
  ⟨_, rfl,
    (C6_cycle_limit ['+', '+', '+'] 2 none false _ (by decide) rfl).1,
    (C6_cycle_limit ['+', '+', '+'] 2 none false _ (by decide) rfl).2⟩

/-- **C7**: the tape invariant — memory pointer a valid index, every cell a
byte — holds of a freshly constructed engine, is preserved by every
executed instruction (assuming every byte the input callback returns is in
[0,255]), and therefore holds in every state a run can stop in; pointer
motion clamps at both bounds and cell arithmetic wraps 255→0 and 0→255. -/
theorem C7_tape_invariant :
    (∀ (source : List Char) (cl : Nat) (inp : Option (Nat → Nat)) (hout : Bool)
      (st0 : Interp), mkInterp source cl inp hout = Except.ok st0 → memOK st0) ∧
    (∀ (st : Interp) (c : Char) (st2 : Interp), memOK st → inputsOK st →
      execute_instruction st c = StepResult.ok st2 → memOK st2) ∧
    (∀ (fuel : Nat) (st : Interp) (r : RunResult), memOK st → inputsOK st →
      runFuel fuel st = some r → memOK (resultState r)) ∧
    (∀ st : Interp, st.memory_pointer = st.memory.length - 1 →
      (instr_inc_memory_pointer st).memory_pointer = st.memory_pointer) ∧
    (∀ st : Interp, st.memory_pointer = 0 →
      (instr_dec_memory_pointer st).memory_pointer = 0) ∧
    (∀ st : Interp, memOK st → currentCell st = max_memory_value →
      currentCell (instr_inc_memory st) = 0) ∧
    (∀ st : Interp, memOK st → currentCell st = 0 →
      currentCell (instr_dec_memory st) = max_memory_value) := by
  refine ⟨?_, ?_, ?_, ?_, ?_, ?_, ?_⟩
  · intro source cl inp hout st0 hmk
    simp only [mkInterp] at hmk
    split at hmk
    · exact Except.noConfusion hmk
    · cases hmk
      refine ⟨?_, ?_⟩
      · show (0 : Nat) < (List.replicate memory_size 0).length
        rw [List.length_replicate]
        decide
      · intro v hv
        rw [List.eq_of_mem_replicate hv]
        omega
  · intro st c st2 hm hin hex
    exact exec_ok_memOK st c st2 hm hin hex
  · intro fuel st r hm hin hr
    exact runFuel_memOK fuel st hm hin r hr
  · intro st hp
    simp only [instr_inc_memory_pointer]
    rw [if_neg (by omega)]
  · intro st hp
    simp only [instr_dec_memory_pointer]
    omega
  · intro st hm hc
    simp only [instr_inc_memory, hc, lt_self_iff_false, if_false]
    unfold currentCell
    rw [List.getD_eq_getElem _ 0 (by simpa using hm.1),
      List.getElem_set_self (by simpa using hm.1)]
  · intro st hm hc
    simp only [instr_dec_memory, hc, gt_iff_lt, lt_self_iff_false, if_false]
    unfold currentCell
    rw [List.getD_eq_getElem _ 0 (by simpa using hm.1),
      List.getElem_set_self (by simpa using hm.1)]

/-- Witness for C7: a fresh engine satisfies the invariant; executing `+`
in a one-cell in-range state preserves it; running `+` to completion ends
in an invariant state; clamp/wrap behaviours at a concrete boundary state. -/
theorem C7_tape_invariant_witness :
    (∃ st0, mkInterp ['+'] 0 none false = Except.ok st0 ∧ memOK st0) ∧
    memOK { smallState ['+'] [] [1] 0 1 with memory := [2] } ∧
    (instr_inc_memory_pointer (smallState ['+'] [] [9] 0 0)).memory_pointer = 0 ∧
    (instr_dec_memory_pointer (smallState ['+'] [] [9] 0 0)).memory_pointer = 0 ∧
    currentCell (instr_inc_memory (smallState ['+'] [] [255] 0 0)) = 0 ∧
    currentCell (instr_dec_memory (smallState ['+'] [] [0] 0 0)) =
      max_memory_value := by
  refine ⟨⟨_, rfl, C7_tape_invariant.1 ['+'] 0 none false _ rfl⟩, ?_, ?_, ?_, ?_, ?_⟩
  · exact C7_tape_invariant.2.1 (smallState ['+'] [] [1] 0 0) '+'
      { smallState ['+'] [] [1] 0 1 with memory := [2] }
      (by decide) (fun f hf => Option.noConfusion hf) rfl
  · exact C7_tape_invariant.2.2.2.1 (smallState ['+'] [] [9] 0 0) rfl
  · exact C7_tape_invariant.2.2.2.2.1 (smallState ['+'] [] [9] 0 0) rfl
  · exact C7_tape_invariant.2.2.2.2.2.1 (smallState ['+'] [] [255] 0 0)
      (by decide) (by decide)
  · exact C7_tape_invariant.2.2.2.2.2.2 (smallState ['+'] [] [0] 0 0)
      (by decide) (by decide)

/-- **C8**: a character outside the supported alphabet faults at dispatch
(`KeyError` carrying the character) before any state change, so the engine
state at the fault still has the instruction pointer at the offending
offset, and the run loop surfaces the fault immediately — no further
instruction executes. -/
theorem C8_unknown_instruction :
    ∀ (st : Interp) (c : Char) (h : st.instruction_pointer < st.source.length),
      st.source.get ⟨st.instruction_pointer, h⟩ = c →
      isInstruction c = false →
      execute_instruction st c = StepResult.fault (Fault.keyError c) st ∧
      (st.need_to_exit = false →
        ¬(st.cycle_limit ≠ 0 ∧ st.cycle_count ≥ st.cycle_limit) →
        ∀ fuel, runFuel (fuel + 1) st =
          some (RunResult.fault (Fault.keyError c) st)) := by
  intro st c h hfetch his
  refine ⟨exec_unknown st c his, ?_⟩
  intro hexit hcyc fuel
  rw [runFuel, dif_pos ⟨h, hexit⟩, if_neg hcyc]
  have hrw : st.source.get ⟨st.instruction_pointer, h⟩ = c := hfetch
  rw [hrw, exec_unknown st c his]

/-- Witness for C8: the program `?` faults at offset 0 with the character
`?` surfaced, before any instruction executes. -/
theorem C8_unknown_instruction_witness :
    execute_instruction (smallState ['?'] [] [0] 0 0) '?' =
      StepResult.fault (Fault.keyError '?') (smallState ['?'] [] [0] 0 0) ∧
    runFuel 1 (smallState ['?'] [] [0] 0 0) =
      some (RunResult.fault (Fault.keyError '?') (smallState ['?'] [] [0] 0 0)) :=
  ⟨(C8_unknown_instruction (smallState ['?'] [] [0] 0 0) '?'
      (by decide) rfl (by decide)).1,
   (C8_unknown_instruction (smallState ['?'] [] [0] 0 0) '?'
      (by decide) rfl (by decide)).2 rfl (by decide) 0⟩

/-- **C9**: the one-pass function-table build records, in source order
(strictly increasing), exactly the offsets one past each `@`; constructing
an engine whose source declares more than 26 functions fails at
construction time with the configuration fault, and construction with 26
or fewer functions succeeds with that table.  (The `raise` line itself has
a typo — it evaluates the undefined name `functions` while formatting the
message, so the exception that actually propagates is a `NameError` rather
than the intended one — but construction still fails fatally at exactly
the same point.) -/
theorem C9_find_functions :
    ∀ (source : List Char),
      (∀ j, j ∈ findFunctions source ↔ ∃ k, source[k]? = some '@' ∧ j = k + 1) ∧
      List.Pairwise (· < ·) (findFunctions source) ∧
      (max_functions < (findFunctions source).length →
        ∀ cl inp hout, mkInterp source cl inp hout =
          Except.error Fault.configError) ∧
      ((findFunctions source).length ≤ max_functions →
        ∀ cl inp hout, ∃ st0, mkInterp source cl inp hout = Except.ok st0 ∧
          st0.functions = findFunctions source) := by
  intro source
  refine ⟨?_, ?_, ?_, ?_⟩
  · intro j
    unfold findFunctions
    rw [findFunctionsAux_mem]
    constructor
    · rintro ⟨k, hk1, hk2⟩
      exact ⟨k, hk1, by omega⟩
    · rintro ⟨k, hk1, hk2⟩
      exact ⟨k, hk1, by omega⟩
  · exact (findFunctionsAux_sorted source 0).1
  · intro hgt cl inp hout
    simp only [mkInterp]
    rw [if_pos (by omega)]
  · intro hle cl inp hout
    simp only [mkInterp]
    rw [if_neg (by omega)]
    exact ⟨_, rfl, rfl⟩

/-- Witness for C9: a source of 27 `@`s fails at construction; `.@+`
succeeds with the one-entry table `[2]`. -/
theorem C9_find_functions_witness :
    (max_functions < (findFunctions (List.replicate 27 '@')).length ∧
      mkInterp (List.replicate 27 '@') 0 none false =
        Except.error Fault.configError) ∧
    ((findFunctions ['.', '@', '+']).length ≤ max_functions ∧
      ∃ st0, mkInterp ['.', '@', '+'] 0 none false = Except.ok st0 ∧
        st0.functions = findFunctions ['.', '@', '+']) :=
  ⟨⟨by decide,
    (C9_find_functions (List.replicate 27 '@')).2.2.1 (by decide) 0 none false⟩,
   ⟨by decide,
    (C9_find_functions ['.', '@', '+']).2.2.2 (by decide) 0 none false⟩⟩

/-- **C10**: at a `[` with a zero current cell and no matching `]` in the
remaining source, the forward scan walks off the end and reads index
`source.length` — one past the last valid index — raising an uncaught
`IndexError` (the engine state at the fault holds that out-of-range
instruction pointer), and the run loop surfaces the fault rather than
stopping cleanly in the exhausted (`RunResult.done`) terminal state. -/
theorem C10_unmatched_bracket :
    ∀ (st : Interp) (h : st.instruction_pointer < st.source.length),
      currentCell st = 0 →
      matchingClose st.source st.instruction_pointer = none →
      execute_instruction st '[' =
        StepResult.fault Fault.indexError
          { st with instruction_pointer := st.source.length } ∧
      (st.source.get ⟨st.instruction_pointer, h⟩ = '[' →
        st.need_to_exit = false →
        ¬(st.cycle_limit ≠ 0 ∧ st.cycle_count ≥ st.cycle_limit) →
        ∀ fuel, runFuel (fuel + 1) st =
          some (RunResult.fault Fault.indexError
            { st with instruction_pointer := st.source.length })) := by
  intro st h hcell hnone
  unfold matchingClose at hnone
  have hskip : skipAux st.source 1 st.instruction_pointer =
      Except.error st.source.length :=
    skipAux_error_of_no_scanMatch st.source
      (st.source.length - st.instruction_pointer) st.instruction_pointer 1
      (Nat.le_refl _) (by omega) h hnone
  have hinstr : execute_instruction st '[' =
      StepResult.fault Fault.indexError
        { st with instruction_pointer := st.source.length } := by
    rw [exec_lbracket]
    unfold instr_loop_start
    rw [if_pos hcell, hskip]
  refine ⟨hinstr, ?_⟩
  intro hfetch hexit hcyc fuel
  rw [runFuel, dif_pos ⟨h, hexit⟩, if_neg hcyc]
  have hrw : st.source.get ⟨st.instruction_pointer, h⟩ = '[' := hfetch
  rw [hrw, hinstr]

/-- Witness for C10: the program `[+` with a zero cell faults with the
instruction pointer driven to 2 = source length, and the run surfaces the
fault immediately. -/
theorem C10_unmatched_bracket_witness :
    execute_instruction (smallState ['[', '+'] [] [0] 0 0) '[' =
      StepResult.fault Fault.indexError
        { smallState ['[', '+'] [] [0] 0 0 with instruction_pointer := 2 } ∧
    runFuel 1 (smallState ['[', '+'] [] [0] 0 0) =
      some (RunResult.fault Fault.indexError
        { smallState ['[', '+'] [] [0] 0 0 with instruction_pointer := 2 }) :=
  ⟨(C10_unmatched_bracket (smallState ['[', '+'] [] [0] 0 0)
      (by decide) (by decide) (by decide)).1,
   (C10_unmatched_bracket (smallState ['[', '+'] [] [0] 0 0)
      (by decide) (by decide) (by decide)).2 rfl rfl (by decide) 0⟩
